import Mathlib

/-!
Verification of the MAVLink-to-MQTT telemetry bridge (`mav-to-mqtt.py`).

The bridge's core pipeline is embedded shallowly:

* A raw MAVLink message (`Msg`) carries a type tag (`get_type()`) and the
  numeric attributes the bridge reads.  An attribute that a concrete message
  lacks is `none`; reading it directly (`msg.lat`) raises in Python, while
  `getattr(msg, k, None)` yields `None` — both are modelled with `Option`.
* A telemetry record is the Python dict built by `build_telemetry_from_msg`:
  an insertion-ordered association list from field name to value.
* Numeric values are exact rationals (`Val.rat`).  The one irrational the
  program produces — `(vx*vx + vy*vy) ** 0.5` in the reader's velocity
  fallback — is represented symbolically by `Val.sqrtRat q`, which denotes
  the nonnegative real square root of `q`.
* The reader thread, the bounded queue (`Queue(maxsize=N)` with the
  drop-oldest-on-full handling around `put_nowait`/`get_nowait`) and the
  rate-limited publish loop of `bridge_loop` become explicit state-passing
  functions over lists of events.
-/

namespace MavBridge

/-- A field value of a telemetry record.  `rat q` is an exact numeric value;
`sqrtRat q` denotes the nonnegative real square root of `q`, produced by the
reader's `(vx*vx + vy*vy) ** 0.5`. -/
inductive Val : Type where
  | rat : ℚ → Val
  | sqrtRat : ℚ → Val
  deriving DecidableEq, Repr

/-- A telemetry record: the Python dict, an insertion-ordered association
list from field name to value. -/
abbrev TRec : Type := List (String × Val)

/-- A raw MAVLink message as read by the bridge: its type tag from
`msg.get_type()` and the numeric attributes the bridge accesses.  A missing
attribute is `none`: direct access (`msg.lat`) then raises `AttributeError`
(caught by the surrounding `try`), while `getattr(msg, k, None)` yields
`None`.  The source stores ints (lat/lon in 1e-7 degrees, alt in mm,
velocities in cm/s, hdg in centidegrees) or floats; both embed into `ℚ`. -/
structure Msg : Type where
  msgType : String
  lat : Option ℚ := none
  lon : Option ℚ := none
  alt : Option ℚ := none
  relative_alt : Option ℚ := none
  vx : Option ℚ := none
  vy : Option ℚ := none
  vz : Option ℚ := none
  hdg : Option ℚ := none
  vel : Option ℚ := none
  airspeed : Option ℚ := none
  groundspeed : Option ℚ := none
  throttle : Option ℚ := none
  eph : Option ℚ := none
  epv : Option ℚ := none
  deriving DecidableEq, Repr

/-- The dict `t` of `build_telemetry_from_msg` just before the final
`None`-filtering comprehension, in Python insertion order: `{"seq": seq,
"timestamp": now}` followed by the keys added by `t.update({...})` for the
recognized type tag.  `none` is returned when the tag is unrecognized or a
required direct attribute access (`msg.lat`, `msg.lon`, `msg.alt` for
`GLOBAL_POSITION_INT` / `GPS_RAW_INT`) raises inside the `try` block. -/
def rawFields (m : Msg) (seq : ℕ) (now : ℚ) : Option (List (String × Option Val)) :=
  if m.msgType = "GLOBAL_POSITION_INT" then
    match m.lat, m.lon, m.alt with
    | some la, some lo, some al =>
        some [("seq", some (.rat seq)), ("timestamp", some (.rat now)),
              ("lat", some (.rat (la / 10 ^ 7))), ("lon", some (.rat (lo / 10 ^ 7))),
              ("alt", some (.rat (al / 1000))),
              ("relative_alt", m.relative_alt.map fun x => .rat (x / 1000)),
              ("vx", m.vx.map .rat), ("vy", m.vy.map .rat), ("vz", m.vz.map .rat),
              ("hdg", m.hdg.map fun x => .rat (x / 100))]
    | _, _, _ => none
  else if m.msgType = "VFR_HUD" then
    some [("seq", some (.rat seq)), ("timestamp", some (.rat now)),
          ("velocity", m.vel.map .rat), ("alt", m.alt.map .rat),
          ("airspeed", m.airspeed.map .rat), ("groundspeed", m.groundspeed.map .rat),
          ("throttle", m.throttle.map .rat)]
  else if m.msgType = "GPS_RAW_INT" then
    match m.lat, m.lon, m.alt with
    | some la, some lo, some al =>
        some [("seq", some (.rat seq)), ("timestamp", some (.rat now)),
              ("lat", some (.rat (la / 10 ^ 7))), ("lon", some (.rat (lo / 10 ^ 7))),
              ("alt", some (.rat (al / 1000))),
              ("eph", m.eph.map .rat), ("epv", m.epv.map .rat)]
    | _, _, _ => none
  else none

/-- The final comprehension `{k: v for k, v in t.items() if v is not None}`:
entries whose value is `None` are dropped, the rest keep their order. -/
def dropNones (t : List (String × Option Val)) : TRec :=
  t.filterMap fun kv => kv.2.map fun v => (kv.1, v)

/-- `build_telemetry_from_msg(msg, seq)`: dict or `None` if the message is
not relevant.  The wall-clock `time.time()` is passed explicitly as `now`. -/
def build_telemetry_from_msg (m : Msg) (seq : ℕ) (now : ℚ) : Option TRec :=
  (rawFields m seq now).map dropNones

/-- Dictionary lookup on a record, mirroring Python's `k in t` / `t[k]`:
the value bound to the first occurrence of the key, if any (the builder
produces records with pairwise-distinct keys, as a Python dict has). -/
def getVal : TRec → String → Option Val
  | [], _ => none
  | (k', v) :: rest, k => if k = k' then some v else getVal rest k

/-- `telemetry.get(k, 0)` for the reader's velocity fallback: the stored
numeric value, or `0` when the key is absent.  (The builder stores `vx`/`vy`
only as numeric `Val.rat` values, so the `sqrtRat` branch is unreachable
there.) -/
def getNum (t : TRec) (k : String) : ℚ :=
  match getVal t k with
  | some (.rat q) => q
  | _ => 0

/-- The reader's velocity fallback: if the record lacks `velocity` and has
`vx` or `vy`, compute `(vx/100)² + (vy/100)²`'s square root, store it as
`velocity` (a new dict key, appended last), then `pop` the `vx`/`vy` keys. -/
def postprocess (t : TRec) : TRec :=
  if getVal t "velocity" = none ∧ ((getVal t "vx").isSome ∨ (getVal t "vy").isSome) then
    let vx := getNum t "vx" / 100
    let vy := getNum t "vy" / 100
    (t ++ [("velocity", Val.sqrtRat (vx * vx + vy * vy))]).filter
      fun kv => kv.1 ≠ "vx" && kv.1 ≠ "vy"
  else t

/-- The reader's enqueue onto `out_queue = Queue(maxsize=N)`:
`put_nowait`; on `Full`, `get_nowait()` (drop the oldest) and retry the
`put_nowait`, dropping the record if that still fails.  Python's
`Queue(maxsize=0)` is unbounded, so `N = 0` always appends. -/
def enqueue {α : Type} (N : ℕ) (buf : List α) (r : α) : List α :=
  if N = 0 then buf ++ [r]
  else if buf.length < N then buf ++ [r]
  else
    let buf' := buf.drop 1
    if buf'.length < N then buf' ++ [r] else buf'

/-- Feeding a burst of records into the queue with no consumer draining. -/
def enqueueAll {α : Type} (N : ℕ) (buf : List α) (rs : List α) : List α :=
  rs.foldl (enqueue N) buf

/-- A raw event actually received by the reader (`recv_match` returned a
message, not a timeout), paired with the wall-clock time of observation. -/
abbrev TEvent : Type := Msg × ℚ

/-- The reader loop over a finite list of observed events, starting from
counter value `seq0` (the source initializes `seq = 0`).  For each observed
message the counter is incremented first, then `build_telemetry_from_msg`
runs with the new value; the trace records, per event, the counter value at
that observation and the record enqueued (after the velocity fallback), or
`none` when normalization rejected the message. -/
def readerTrace (seq0 : ℕ) : List TEvent → List (ℕ × Option TRec)
  | [] => []
  | ev :: rest =>
      (seq0 + 1, (build_telemetry_from_msg ev.1 (seq0 + 1) ev.2).map postprocess)
        :: readerTrace (seq0 + 1) rest

/-- `publish_interval = 1.0 / max(0.1, rate_hz)` from `bridge_loop`. -/
def publish_interval (rate_hz : ℚ) : ℚ :=
  1 / max (1 / 10) rate_hz

/-- The publish loop of `bridge_loop` over a finite list of dequeued
records, each paired with the `time.time()` value taken for it: if
`now - last_pub < publish_interval` the record is skipped (never
re-queued), otherwise it is published and `last_pub` becomes `now`.
Returns the timestamps of the successful publishes, in order. -/
def publishTimes (interval : ℚ) : ℚ → List (ℚ × TRec) → List ℚ
  | _, [] => []
  | last_pub, a :: rest =>
      if a.1 - last_pub < interval then publishTimes interval last_pub rest
      else a.1 :: publishTimes interval a.1 rest

/-- The three type tags `build_telemetry_from_msg` recognizes. -/
def recognized (mt : String) : Bool :=
  mt = "GLOBAL_POSITION_INT" || mt = "VFR_HUD" || mt = "GPS_RAW_INT"

/-- Field extraction fails exactly when a recognized branch's direct
attribute access raises: `msg.lat`, `msg.lon` or `msg.alt` is missing in
the `GLOBAL_POSITION_INT` or `GPS_RAW_INT` branch (the `VFR_HUD` branch
reads every field through `getattr(·, ·, None)` and cannot raise). -/
def extractionFails (m : Msg) : Bool :=
  (m.msgType = "GLOBAL_POSITION_INT" || m.msgType = "GPS_RAW_INT")
    && (m.lat.isNone || m.lon.isNone || m.alt.isNone)

/-- Model of `read_password`: `fs` maps a file path to its contents,
`none` when the file cannot be read.  The `except` branch prints to stderr
and returns `None`; the result pairs the returned password with the stderr
lines produced. -/
def read_password (file_path : Option String) (fs : String → Option String) :
    Option String × List String :=
  match file_path with
  | none => (none, [])
  | some p =>
      match fs p with
      | some contents => (some contents.trim, [])
      | none => (none, ["[args] failed reading password file"])

/-- Outcome of `main` up to and including the decision to start the
pipeline. -/
structure StartupResult : Type where
  pipelineStarted : Bool
  password : Option String
  stderrLines : List String
  deriving DecidableEq, Repr

/-- Model of `main` up to the call of `bridge_loop`: `read_password`
catches every exception (printing and returning `None`), so `main` always
reaches `bridge_loop(...)` — the pipeline is started unconditionally. -/
def main_startup (passFile : Option String) (fs : String → Option String) : StartupResult :=
  let pw := read_password passFile fs
  { pipelineStarted := true, password := pw.1, stderrLines := pw.2 }

/-- A stand-in record carrying only an event number, for buffer scenarios. -/
def seqRec (n : ℕ) : TRec :=
  [("seq", Val.rat n)]

theorem getVal_append_of_ne (t : TRec) (kk : String) (vv : Val) (k : String) (h : k ≠ kk) :
    getVal (t ++ [(kk, vv)]) k = getVal t k := by
  induction t with
  | nil => simp [getVal, h]
  | cons kv rest ih =>
      obtain ⟨k', v'⟩ := kv
      by_cases hk : k = k' <;> simp [getVal, hk, ih]

theorem getVal_append_of_none (t t2 : TRec) (k : String) (h : getVal t k = none) :
    getVal (t ++ t2) k = getVal t2 k := by
  induction t with
  | nil => simp
  | cons kv rest ih =>
      obtain ⟨k', v'⟩ := kv
      by_cases hk : k = k'
      · simp [getVal, hk] at h
      · simp [getVal, hk] at h ⊢
        exact ih h

theorem getVal_filter_of_pos (p : String × Val → Bool) (t : TRec) (k : String)
    (hp : ∀ v, p (k, v) = true) :
    getVal (t.filter p) k = getVal t k := by
  induction t with
  | nil => rfl
  | cons kv rest ih =>
      obtain ⟨k', v'⟩ := kv
      by_cases hk : k = k'
      · subst hk
        rw [List.filter_cons, hp v']
        simp [getVal]
      · rw [List.filter_cons]
        cases hpv : p (k', v') <;> simp [getVal, hk, ih]

theorem getVal_filter_of_neg (p : String × Val → Bool) (t : TRec) (k : String)
    (hp : ∀ v, p (k, v) = false) :
    getVal (t.filter p) k = none := by
  induction t with
  | nil => rfl
  | cons kv rest ih =>
      obtain ⟨k', v'⟩ := kv
      by_cases hk : k = k'
      · subst hk
        rw [List.filter_cons, hp v']
        simpa using ih
      · rw [List.filter_cons]
        cases hpv : p (k', v') <;> simp [getVal, hk, ih]

/-- C4: exactly when a record lacks `velocity` and carries a horizontal
component, the reader synthesizes `velocity = sqrt((vx/100)² + (vy/100)²)`
(a missing component defaulting to 0 via `.get(k, 0)`) and removes the
`vx`/`vy` keys; a record with neither component is left untouched, so no
`velocity` is ever synthesized for it. -/
theorem velocity_fallback (t : TRec) :
    (getVal t "velocity" = none →
      ((getVal t "vx").isSome ∨ (getVal t "vy").isSome) →
        getVal (postprocess t) "velocity"
            = some (Val.sqrtRat ((getNum t "vx" / 100) ^ 2 + (getNum t "vy" / 100) ^ 2))
          ∧ getVal (postprocess t) "vx" = none
          ∧ getVal (postprocess t) "vy" = none)
  ∧ (getVal t "vx" = none → getVal t "vy" = none →
      postprocess t = t ∧ getVal (postprocess t) "velocity" = getVal t "velocity") := by
  constructor
  · intro hvel hvxy
    rw [postprocess, if_pos ⟨hvel, hvxy⟩]
    refine ⟨?_, ?_, ?_⟩
    · rw [getVal_filter_of_pos _ _ _ (fun v => by simp),
        getVal_append_of_none _ _ _ hvel]
      simp [getVal]
      ring_nf
    · exact getVal_filter_of_neg _ _ _ (fun v => by simp)
    · exact getVal_filter_of_neg _ _ _ (fun v => by simp)
  · intro hvx hvy
    have hpp : postprocess t = t := by
      rw [postprocess, if_neg]
      rintro ⟨-, h | h⟩ <;> simp [hvx, hvy] at h
    exact ⟨hpp, by rw [hpp]⟩

/-- C10: when the velocity fallback fires, only the `vx`/`vy` keys are
removed — every other key present in the record (`vz`, `hdg`, …) keeps its
value in the final record. -/
theorem velocity_fallback_frame (t : TRec) (k : String) (v : Val)
    (hvel : getVal t "velocity" = none)
    (hvxy : (getVal t "vx").isSome ∨ (getVal t "vy").isSome)
    (hkx : k ≠ "vx") (hky : k ≠ "vy")
    (hk : getVal t k = some v) :
    getVal (postprocess t) k = some v := by
  have hkvel : k ≠ "velocity" := by
    rintro rfl
    rw [hvel] at hk
    exact Option.noConfusion hk
  rw [postprocess, if_pos ⟨hvel, hvxy⟩,
    getVal_filter_of_pos _ _ _ (fun v' => by simp [hkx, hky]),
    getVal_append_of_ne _ _ _ _ hkvel, hk]

theorem rawFields_head (m : Msg) (seq : ℕ) (now : ℚ) (t : List (String × Option Val))
    (h : rawFields m seq now = some t) :
    ∃ t', t = ("seq", some (Val.rat seq)) :: t' := by
  unfold rawFields at h
  split at h
  · split at h
    · exact ⟨_, (Option.some.inj h).symm⟩
    · exact Option.noConfusion h
  · split at h
    · exact ⟨_, (Option.some.inj h).symm⟩
    · split at h
      · split at h
        · exact ⟨_, (Option.some.inj h).symm⟩
        · exact Option.noConfusion h
      · exact Option.noConfusion h

theorem build_seq_field (m : Msg) (seq : ℕ) (now : ℚ) (r : TRec)
    (h : build_telemetry_from_msg m seq now = some r) :
    getVal r "seq" = some (Val.rat seq)
  ∧ getVal (postprocess r) "seq" = some (Val.rat seq) := by
  rw [build_telemetry_from_msg] at h
  cases hrf : rawFields m seq now with
  | none => rw [hrf] at h; exact Option.noConfusion h
  | some t =>
      rw [hrf] at h
      obtain ⟨t', rfl⟩ := rawFields_head m seq now t hrf
      have hr : r = ("seq", Val.rat seq) :: dropNones t' := by
        have := Option.some.inj h
        simp [dropNones] at this ⊢
        exact this.symm
      have hg : getVal r "seq" = some (Val.rat seq) := by
        rw [hr]; simp [getVal]
      refine ⟨hg, ?_⟩
      rw [postprocess]
      split
      · rw [getVal_filter_of_pos _ _ _ (fun v => by simp),
          getVal_append_of_ne _ _ _ _ (by decide)]
        exact hg
      · exact hg

/-- C2: starting from the source's `seq = 0`, the counter value at the
i-th observed raw event is exactly `i + 1` — it starts at 1 and grows by
exactly 1 per observed event, whether or not normalization succeeds — and
every record the reader accepts carries the counter value current at its
observation in its `seq` field. -/
theorem seq_counter (es : List TEvent) :
    (readerTrace 0 es).map Prod.fst = List.range' 1 es.length
  ∧ ∀ p ∈ readerTrace 0 es, ∀ r, p.2 = some r → getVal r "seq" = some (Val.rat p.1) := by
  have hseq : ∀ (seq0 : ℕ) (l : List TEvent),
      (readerTrace seq0 l).map Prod.fst = List.range' (seq0 + 1) l.length := by
    intro seq0 l
    induction l generalizing seq0 with
    | nil => rfl
    | cons ev rest ih => simp [readerTrace, List.range', ih]
  have hrec : ∀ (seq0 : ℕ) (l : List TEvent) (p : ℕ × Option TRec),
      p ∈ readerTrace seq0 l → ∀ r, p.2 = some r → getVal r "seq" = some (Val.rat p.1) := by
    intro seq0 l
    induction l generalizing seq0 with
    | nil => intro p hp; simp [readerTrace] at hp
    | cons ev rest ih =>
        intro p hp r hr
        simp only [readerTrace, List.mem_cons] at hp
        rcases hp with rfl | hp
        · cases hb : build_telemetry_from_msg ev.1 (seq0 + 1) ev.2 with
          | none => rw [hb] at hr; exact Option.noConfusion hr
          | some r0 =>
              rw [hb] at hr
              simp only [Option.map_some', Option.some.injEq] at hr
              subst hr
              exact (build_seq_field _ _ _ _ hb).2
        · exact ih (seq0 + 1) p hp r hr
  exact ⟨hseq 0 es, fun p hp r hr => hrec 0 es p hp r hr⟩

/-- C1: for every `GLOBAL_POSITION_INT` message the normalizer accepts, the
output's `lat`/`lon` are the raw fields divided by `1e7`, `alt` is the raw
millimeter field divided by `1000`, `relative_alt` (when the source field is
present) is the raw field divided by `1000`, and `hdg` (when present) is the
raw field divided by `100`. -/
theorem position_scaling (m : Msg) (seq : ℕ) (now la lo al : ℚ)
    (ht : m.msgType = "GLOBAL_POSITION_INT")
    (hla : m.lat = some la) (hlo : m.lon = some lo) (hal : m.alt = some al) :
    ∃ r, build_telemetry_from_msg m seq now = some r
      ∧ getVal r "lat" = some (Val.rat (la / 10 ^ 7))
      ∧ getVal r "lon" = some (Val.rat (lo / 10 ^ 7))
      ∧ getVal r "alt" = some (Val.rat (al / 1000))
      ∧ (∀ x, m.relative_alt = some x → getVal r "relative_alt" = some (Val.rat (x / 1000)))
      ∧ (∀ x, m.hdg = some x → getVal r "hdg" = some (Val.rat (x / 100))) := by
  have hb : build_telemetry_from_msg m seq now
      = some (dropNones
          [("seq", some (.rat seq)), ("timestamp", some (.rat now)),
           ("lat", some (.rat (la / 10 ^ 7))), ("lon", some (.rat (lo / 10 ^ 7))),
           ("alt", some (.rat (al / 1000))),
           ("relative_alt", m.relative_alt.map fun x => .rat (x / 1000)),
           ("vx", m.vx.map .rat), ("vy", m.vy.map .rat), ("vz", m.vz.map .rat),
           ("hdg", m.hdg.map fun x => .rat (x / 100))]) := by
    simp [build_telemetry_from_msg, rawFields, ht, hla, hlo, hal]
  refine ⟨_, hb, ?_, ?_, ?_, ?_, ?_⟩
  · simp [dropNones, getVal]
  · simp [dropNones, getVal]
  · simp [dropNones, getVal]
  · intro x hx
    simp [dropNones, getVal, hx]
  · intro x hx
    rcases m.relative_alt with _ | ra <;> rcases m.vx with _ | vx <;>
      rcases m.vy with _ | vy <;> rcases m.vz with _ | vz <;>
      simp [dropNones, getVal, hx]

/-- C1 witness: the spec scenario `lat=473397000, lon=85550500, alt=500000,
relative_alt=10000` yields `lat=47.3397, lon=8.55505, alt=500.0,
relative_alt=10.0`. -/
theorem position_scaling_witness :
    ((build_telemetry_from_msg
        { msgType := "GLOBAL_POSITION_INT", lat := some 473397000,
          lon := some 85550500, alt := some 500000,
          relative_alt := some 10000 } 1 0).bind
      fun r => getVal r "lat") = some (Val.rat 47.3397)
  ∧ ((build_telemetry_from_msg
        { msgType := "GLOBAL_POSITION_INT", lat := some 473397000,
          lon := some 85550500, alt := some 500000,
          relative_alt := some 10000 } 1 0).bind
      fun r => getVal r "lon") = some (Val.rat 8.55505)
  ∧ ((build_telemetry_from_msg
        { msgType := "GLOBAL_POSITION_INT", lat := some 473397000,
          lon := some 85550500, alt := some 500000,
          relative_alt := some 10000 } 1 0).bind
      fun r => getVal r "alt") = some (Val.rat 500)
  ∧ ((build_telemetry_from_msg
        { msgType := "GLOBAL_POSITION_INT", lat := some 473397000,
          lon := some 85550500, alt := some 500000,
          relative_alt := some 10000 } 1 0).bind
      fun r => getVal r "relative_alt") = some (Val.rat 10) := by
  obtain ⟨r, hb, hlat, hlon, halt, hrel, -⟩ :=
    position_scaling
      { msgType := "GLOBAL_POSITION_INT", lat := some 473397000,
        lon := some 85550500, alt := some 500000, relative_alt := some 10000 }
      1 0 473397000 85550500 500000 rfl rfl rfl rfl
  rw [hb]
  refine ⟨?_, ?_, ?_, ?_⟩
  · simpa using hlat.trans (congrArg (fun q => some (Val.rat q)) (by norm_num))
  · simpa using hlon.trans (congrArg (fun q => some (Val.rat q)) (by norm_num))
  · simpa using halt.trans (congrArg (fun q => some (Val.rat q)) (by norm_num))
  · simpa using (hrel 10000 rfl).trans (congrArg (fun q => some (Val.rat q)) (by norm_num))

/-- C6: the normalizer returns `None` exactly when the type tag is not one
of the three recognized tags or a field extraction fails for a recognized
tag; and an accepted record of a position-like tag is never partially
populated — its required `lat`/`lon`/`alt` fields are all present. -/
theorem normalize_rejects (m : Msg) (seq : ℕ) (now : ℚ) :
    (build_telemetry_from_msg m seq now = none
        ↔ recognized m.msgType = false ∨ extractionFails m = true)
  ∧ ∀ r, build_telemetry_from_msg m seq now = some r →
      (m.msgType = "GLOBAL_POSITION_INT" ∨ m.msgType = "GPS_RAW_INT") →
      ((getVal r "lat").isSome ∧ (getVal r "lon").isSome ∧ (getVal r "alt").isSome) := by
  by_cases h1 : m.msgType = "GLOBAL_POSITION_INT"
  · refine ⟨?_, ?_⟩
    · rcases hla : m.lat with _ | la <;> rcases hlo : m.lon with _ | lo <;>
        rcases hal : m.alt with _ | al <;>
        simp [build_telemetry_from_msg, rawFields, recognized, extractionFails,
          h1, hla, hlo, hal]
    · intro r hr htag
      rcases hla : m.lat with _ | la <;> rcases hlo : m.lon with _ | lo <;>
        rcases hal : m.alt with _ | al <;>
        simp [build_telemetry_from_msg, rawFields, h1, hla, hlo, hal] at hr <;>
        simp [← hr, dropNones, getVal]
  · by_cases h2 : m.msgType = "VFR_HUD"
    · refine ⟨?_, ?_⟩
      · simp [build_telemetry_from_msg, rawFields, recognized, extractionFails, h1, h2]
      · intro r hr htag
        rcases htag with h | h <;> rw [h2] at h <;> simp at h
    · by_cases h3 : m.msgType = "GPS_RAW_INT"
      · refine ⟨?_, ?_⟩
        · rcases hla : m.lat with _ | la <;> rcases hlo : m.lon with _ | lo <;>
            rcases hal : m.alt with _ | al <;>
            simp [build_telemetry_from_msg, rawFields, recognized, extractionFails,
              h1, h2, h3, hla, hlo, hal]
        · intro r hr htag
          rcases hla : m.lat with _ | la <;> rcases hlo : m.lon with _ | lo <;>
            rcases hal : m.alt with _ | al <;>
            simp [build_telemetry_from_msg, rawFields, h1, h2, h3, hla, hlo, hal] at hr <;>
            simp [← hr, dropNones, getVal]
      · refine ⟨?_, ?_⟩
        · simp [build_telemetry_from_msg, rawFields, recognized, extractionFails,
            h1, h2, h3]
        · intro r hr htag
          simp [build_telemetry_from_msg, rawFields, h1, h2, h3] at hr

/-- A `GPS_RAW_INT` message at the origin, with no optional fields. -/
def gpsMsgW : Msg :=
  { msgType := "GPS_RAW_INT", lat := some 0, lon := some 0, alt := some 0 }

/-- The record the normalizer builds from `gpsMsgW` at `seq = 1, now = 0`. -/
def gpsRecW : TRec :=
  [("seq", Val.rat 1), ("timestamp", Val.rat 0),
   ("lat", Val.rat (0 / 10 ^ 7)), ("lon", Val.rat (0 / 10 ^ 7)),
   ("alt", Val.rat (0 / 1000))]

/-- C6 witness: an unrecognized tag is rejected, and an accepted
`GPS_RAW_INT` record carries all of `lat`, `lon`, `alt`. -/
theorem normalize_rejects_witness :
    build_telemetry_from_msg { msgType := "ATTITUDE" } 1 0 = none
  ∧ ((getVal gpsRecW "lat").isSome ∧ (getVal gpsRecW "lon").isSome
      ∧ (getVal gpsRecW "alt").isSome) :=
  ⟨(normalize_rejects { msgType := "ATTITUDE" } 1 0).1.mpr (Or.inl (by decide)),
   (normalize_rejects gpsMsgW 1 0).2 gpsRecW rfl (Or.inr rfl)⟩

theorem mem_dropNones (t : List (String × Option Val)) (k : String) (v : Val) :
    (k, v) ∈ dropNones t ↔ (k, some v) ∈ t := by
  simp only [dropNones, List.mem_filterMap]
  constructor
  · rintro ⟨⟨k', ov⟩, hmem, heq⟩
    cases ov with
    | none => simp at heq
    | some v' =>
        simp only [Option.map_some', Option.some.injEq, Prod.mk.injEq] at heq
        obtain ⟨rfl, rfl⟩ := heq
        exact hmem
  · intro hmem
    exact ⟨(k, some v), hmem, rfl⟩

/-- C8: the produced record consists of exactly the extracted fields whose
value is known — an entry `(k, v)` is in the output iff the unfiltered
extraction bound `k` to the known value `v`; a key whose extracted value is
`None` is omitted entirely, never bound to a placeholder. -/
theorem omit_none_fields (m : Msg) (seq : ℕ) (now : ℚ)
    (t : List (String × Option Val)) (h : rawFields m seq now = some t) :
    build_telemetry_from_msg m seq now = some (dropNones t)
  ∧ ∀ k v, ((k, v) ∈ dropNones t ↔ (k, some v) ∈ t) :=
  ⟨by simp [build_telemetry_from_msg, h], fun k v => mem_dropNones t k v⟩

/-- The unfiltered extraction for a `VFR_HUD` message carrying only `vel`. -/
def vfrFieldsW : List (String × Option Val) :=
  [("seq", some (Val.rat 1)), ("timestamp", some (Val.rat 0)),
   ("velocity", some (Val.rat 3)), ("alt", none), ("airspeed", none),
   ("groundspeed", none), ("throttle", none)]

/-- C8 witness: on a `VFR_HUD` message carrying only `vel`, the record is
the `None`-filtered extraction, `velocity` is kept, and `alt` (whose
extracted value is unknown) is omitted. -/
theorem omit_none_fields_witness :
    build_telemetry_from_msg { msgType := "VFR_HUD", vel := some 3 } 1 0
        = some (dropNones vfrFieldsW)
  ∧ (("velocity", Val.rat 3) ∈ dropNones vfrFieldsW
      ↔ ("velocity", some (Val.rat 3)) ∈ vfrFieldsW) :=
  ⟨(omit_none_fields { msgType := "VFR_HUD", vel := some 3 } 1 0 vfrFieldsW rfl).1,
   (omit_none_fields { msgType := "VFR_HUD", vel := some 3 } 1 0 vfrFieldsW rfl).2
     "velocity" (Val.rat 3)⟩

/-- C3: enqueuing into a buffer of capacity `N > 0` holding at most `N`
records never leaves more than `N`; on a full buffer exactly the single
oldest entry is evicted and the new record appended, so the result is
`buf.drop 1 ++ [r]` — the newest record is present, the old head is gone
(absent outright when the records are distinct), and the surviving records
keep their FIFO order. -/
theorem enqueue_bounded {α : Type} (N : ℕ) (buf : List α) (r : α)
    (hN : 0 < N) (hlen : buf.length ≤ N) :
    (enqueue N buf r).length ≤ N
  ∧ (buf.length = N →
      enqueue N buf r = buf.drop 1 ++ [r]
    ∧ r ∈ enqueue N buf r
    ∧ (buf.Nodup → r ∉ buf → ∀ x ∈ buf.head?, x ∉ enqueue N buf r)) := by
  rw [enqueue, if_neg hN.ne']
  by_cases hfull : buf.length < N
  · rw [if_pos hfull]
    refine ⟨by simpa using hfull, fun heq => absurd heq hfull.ne⟩
  · rw [if_neg hfull]
    have heq : buf.length = N := le_antisymm hlen (not_lt.mp hfull)
    have hdrop : (buf.drop 1).length < N := by
      rw [List.length_drop, heq]
      omega
    rw [if_pos hdrop]
    refine ⟨?_, fun _ => ⟨rfl, ?_, ?_⟩⟩
    · simp [List.length_drop, heq]
      omega
    · simp
    · intro hnd hnotin x hx
      cases buf with
      | nil => simp at hx
      | cons b tail =>
          simp only [List.head?_cons, Option.mem_def, Option.some.injEq] at hx
          subst hx
          simp only [List.drop_one, List.tail_cons, List.mem_append,
            List.mem_singleton]
          rintro (hmem | rfl)
          · exact (List.nodup_cons.mp hnd).1 hmem
          · exact hnotin (List.mem_cons_self b tail)

/-- C3 witness: capacity 2, full buffer `[0, 1]`, enqueuing `2` keeps the
length at 2, evicts the single oldest entry `0` and appends the newest. -/
theorem enqueue_bounded_witness :
    (enqueue 2 [0, 1] (2 : ℕ)).length ≤ 2
  ∧ enqueue 2 [0, 1] (2 : ℕ) = [1, 2]
  ∧ (2 : ℕ) ∈ enqueue 2 [0, 1] (2 : ℕ)
  ∧ (0 : ℕ) ∉ enqueue 2 [0, 1] (2 : ℕ) := by
  obtain ⟨h1, h2⟩ := enqueue_bounded 2 [0, 1] (2 : ℕ) (by decide) (by decide)
  obtain ⟨he, hm, habs⟩ := h2 rfl
  exact ⟨h1, by rw [he]; rfl, hm, habs (by decide) (by decide) 0 rfl⟩

set_option maxRecDepth 100000 in
/-- C9 counterexample: feeding 250 records into an empty capacity-200
buffer leaves the 200 records of events 51–250 — event 300 (claimed to be
in the final buffer) was never fed and is absent. -/
theorem burst_counterexample :
    (enqueueAll 200 ([] : List ℕ) (List.range' 1 250)).length = 200
  ∧ (300 : ℕ) ∉ enqueueAll 200 ([] : List ℕ) (List.range' 1 250) := by
  decide

set_option maxRecDepth 100000 in
/-- C9 amended: feeding 250 records (events 1–250) in rapid succession into
a capacity-200 buffer with no consumer draining leaves final length exactly
200, containing events 51–250 in order. -/
theorem burst_drop_oldest :
    enqueueAll 200 ([] : List ℕ) (List.range' 1 250) = List.range' 51 200
  ∧ (enqueueAll 200 ([] : List ℕ) (List.range' 1 250)).length = 200 := by
  decide

theorem publishTimes_ge (interval : ℚ) (hi : 0 ≤ interval) (last0 : ℚ)
    (arr : List (ℚ × TRec)) :
    ∀ t ∈ publishTimes interval last0 arr, last0 + interval ≤ t := by
  induction arr generalizing last0 with
  | nil => intro t ht; simp [publishTimes] at ht
  | cons a rest ih =>
      intro t ht
      rw [publishTimes] at ht
      by_cases hc : a.1 - last0 < interval
      · rw [if_pos hc] at ht
        exact ih last0 t ht
      · rw [if_neg hc] at ht
        rcases List.mem_cons.mp ht with rfl | ht'
        · linarith [not_lt.mp hc]
        · have h1 := ih a.1 t ht'
          have h2 := not_lt.mp hc
          linarith

theorem publishTimes_chain (interval : ℚ) (hi : 0 ≤ interval) (last0 : ℚ)
    (arr : List (ℚ × TRec)) :
    List.Chain' (fun t1 t2 => interval ≤ t2 - t1) (publishTimes interval last0 arr) := by
  induction arr generalizing last0 with
  | nil => simp [publishTimes]
  | cons a rest ih =>
      rw [publishTimes]
      by_cases hc : a.1 - last0 < interval
      · rw [if_pos hc]
        exact ih last0
      · rw [if_neg hc]
        rw [List.chain'_cons']
        refine ⟨?_, ih a.1⟩
        intro b hb
        have hmem : b ∈ publishTimes interval a.1 rest := List.mem_of_mem_head? hb
        have := publishTimes_ge interval hi a.1 rest b hmem
        linarith

/-- C5 counterexample: for configured rate R = 0.05 Hz the code's interval
is `1/max(0.1, R) = 10 s`, so two successful publishes can be spaced 10 s
apart — less than the `1/R = 20 s` the claim asserts as a lower bound. -/
theorem rate_limit_counterexample :
    publishTimes (publish_interval (1 / 20)) 0 [((10 : ℚ), []), (20, [])] = [10, 20]
  ∧ (20 : ℚ) - 10 < 1 / (1 / 20 : ℚ) := by
  have hI : publish_interval (1 / 20) = 10 := by
    rw [publish_interval, max_def]
    norm_num
  constructor
  · rw [hI]
    norm_num [publishTimes]
  · norm_num

/-- C5 amended: the publish interval is `1/max(0.1, R)` seconds, two
consecutive successful publishes (by the `now` timestamps taken before each
publish) are never spaced by less than that interval — hence never by less
than `1/R` whenever `R ≥ 0.1` — and a record dequeued sooner than the
interval after the last publish is dropped, never re-buffered. -/
theorem rate_limit (R last0 : ℚ) (arr : List (ℚ × TRec)) :
    publish_interval R = 1 / max (1 / 10) R
  ∧ List.Chain' (fun t1 t2 => publish_interval R ≤ t2 - t1)
      (publishTimes (publish_interval R) last0 arr)
  ∧ ∀ a rest, arr = a :: rest → a.1 - last0 < publish_interval R →
      publishTimes (publish_interval R) last0 arr
        = publishTimes (publish_interval R) last0 rest := by
  have hpos : 0 ≤ publish_interval R := by
    rw [publish_interval]
    exact one_div_nonneg.mpr ((by norm_num : (0 : ℚ) ≤ 1 / 10).trans (le_max_left _ _))
  refine ⟨rfl, publishTimes_chain _ hpos last0 arr, ?_⟩
  rintro a rest rfl hlt
  rw [publishTimes, if_pos hlt]

/-- C5 witness: the spec scenario at R = 2 Hz — a record dequeued 0.1 s
after the last publish is dropped, leaving exactly what the remaining
records alone would publish. -/
theorem rate_limit_witness :
    publishTimes (publish_interval 2) 0 [((1 : ℚ) / 10, []), (6 / 10, [])]
      = publishTimes (publish_interval 2) 0 [((6 : ℚ) / 10, [])] :=
  (rate_limit 2 0 [((1 : ℚ) / 10, []), (6 / 10, [])]).2.2
    ((1 : ℚ) / 10, []) [((6 : ℚ) / 10, [])] rfl
    (by rw [publish_interval, max_def]; norm_num)

/-- C7 counterexample: with an unreadable password file, `main` prints the
failure to stderr but still calls `bridge_loop` — the pipeline begins, so
startup does not abort. -/
theorem startup_no_abort_counterexample :
    (main_startup (some "mqtt_pass.txt") (fun _ => none)).pipelineStarted = true
  ∧ (main_startup (some "mqtt_pass.txt") (fun _ => none)).stderrLines
      = ["[args] failed reading password file"] :=
  ⟨rfl, rfl⟩

/-- C7 amended: if the configured credential file is unreadable at startup,
the error is reported to the operator on stderr, but startup does not
abort — `read_password` returns `None`, and the pipeline begins with no
password. -/
theorem startup_reports_and_continues (passFile : Option String)
    (fs : String → Option String) (p : String)
    (hp : passFile = some p) (hfs : fs p = none) :
    (main_startup passFile fs).stderrLines = ["[args] failed reading password file"]
  ∧ (main_startup passFile fs).password = none
  ∧ (main_startup passFile fs).pipelineStarted = true := by
  subst hp
  simp [main_startup, read_password, hfs]

/-- C7 witness: a concrete unreadable credential file. -/
theorem startup_reports_and_continues_witness :
    (main_startup (some "pass.txt") (fun _ => none)).stderrLines
        = ["[args] failed reading password file"]
  ∧ (main_startup (some "pass.txt") (fun _ => none)).password = none
  ∧ (main_startup (some "pass.txt") (fun _ => none)).pipelineStarted = true :=
  startup_reports_and_continues (some "pass.txt") (fun _ => none) "pass.txt" rfl rfl

/-- C2 witness: one observed `VFR_HUD` event from `seq = 0`; the accepted
record carries `seq = 1`, the counter value at its observation. -/
theorem seq_counter_witness :
    getVal [("seq", Val.rat 1), ("timestamp", Val.rat 5), ("velocity", Val.rat 3)] "seq"
      = some (Val.rat 1) :=
  (seq_counter [({ msgType := "VFR_HUD", vel := some 3 }, 5)]).2
    (1, some [("seq", Val.rat 1), ("timestamp", Val.rat 5), ("velocity", Val.rat 3)])
    (by decide)
    [("seq", Val.rat 1), ("timestamp", Val.rat 5), ("velocity", Val.rat 3)] rfl

/-- C4 witness: a record with `vx = 300, vy = 400` cm/s and no `velocity`
gains `velocity = sqrt(3² + 4²) = sqrt 25` m/s and loses both components. -/
theorem velocity_fallback_witness :
    getVal (postprocess [("seq", Val.rat 1), ("vx", Val.rat 300), ("vy", Val.rat 400)])
        "velocity" = some (Val.sqrtRat 25)
  ∧ getVal (postprocess [("seq", Val.rat 1), ("vx", Val.rat 300), ("vy", Val.rat 400)])
        "vx" = none
  ∧ getVal (postprocess [("seq", Val.rat 1), ("vx", Val.rat 300), ("vy", Val.rat 400)])
        "vy" = none := by
  obtain ⟨h1, h2, h3⟩ :=
    (velocity_fallback [("seq", Val.rat 1), ("vx", Val.rat 300), ("vy", Val.rat 400)]).1
      (by decide) (Or.inl (by decide))
  refine ⟨h1.trans (congrArg (fun q => some (Val.sqrtRat q)) ?_), h2, h3⟩
  have hvx : getNum [("seq", Val.rat 1), ("vx", Val.rat 300), ("vy", Val.rat 400)] "vx"
      = 300 := by decide
  have hvy : getNum [("seq", Val.rat 1), ("vx", Val.rat 300), ("vy", Val.rat 400)] "vy"
      = 400 := by decide
  rw [hvx, hvy]
  norm_num

/-- C10 witness: when the fallback fires on a record also carrying `vz` and
`hdg`, the `vz` entry keeps its value in the final record. -/
theorem velocity_fallback_frame_witness :
    getVal (postprocess [("seq", Val.rat 1), ("vx", Val.rat 300), ("vy", Val.rat 400),
        ("vz", Val.rat 5), ("hdg", Val.rat 90)]) "vz" = some (Val.rat 5) :=
  velocity_fallback_frame
    [("seq", Val.rat 1), ("vx", Val.rat 300), ("vy", Val.rat 400),
     ("vz", Val.rat 5), ("hdg", Val.rat 90)]
    "vz" (Val.rat 5) (by decide) (Or.inl (by decide)) (by decide) (by decide) (by decide)

end MavBridge
